import Mathlib

/-!
# Verification of the `jupyter_lsp` language-server manager

A shallow embedding of `jupyter_lsp/manager.py` (class `LanguageServerManager`)
together with proofs about its spec-resolution, subscription, and
message-forwarding behaviour.

Modelling conventions:

* A Python `dict` is modelled as an insertion-ordered association list
  (`PyDict`): `insertD` replaces the value in place when the key is present
  (as a Python dict does) and appends otherwise; `updateD` is `dict.update`,
  iterating the argument's pairs in order so that later pairs win.
* A `ServerKey` is modelled as a `String` (the code keys its dicts by the
  language-server name).
* A `Spec` carries the `argv` field the manager inspects; an absent `argv`
  key is modelled as the empty list (both are falsy for `spec.get("argv")`).
* Asynchronous behaviour is modelled by event traces: each operation returns
  the list of externally visible events (listener completions, session
  writes, handler deliveries, log records) in the order they occur.
-/

set_option autoImplicit false

namespace JupyterLsp

/-! ## Python dict model -/

abbrev PyDict (α : Type) := List (String × α)

variable {α : Type}

/-- `d.get(k)`: the value of the first pair with key `k` (a real Python dict
never has duplicate keys, so the first match is the value). -/
def lookupD : PyDict α → String → Option α
  | [], _ => none
  | (k', v) :: rest, k => if k' = k then some v else lookupD rest k

/-- `d[k] = v`: replace in place if the key is present, append otherwise. -/
def insertD : PyDict α → String → α → PyDict α
  | [], k, v => [(k, v)]
  | (k', v') :: rest, k, v =>
      if k' = k then (k', v) :: rest else (k', v') :: insertD rest k v

/-- `d.update(ps)`: insert every pair of `ps` in order; later pairs win. -/
def updateD (d : PyDict α) (ps : List (String × α)) : PyDict α :=
  ps.foldl (fun acc kv => insertD acc kv.1 kv.2) d

/-- Left-biased choice on `Option`. -/
def orO (a b : Option α) : Option α :=
  match a with
  | some v => some v
  | none => b

/-- The value of the *last* pair of `ps` with key `k`: what a dict retains
after inserting the pairs of `ps` in order. -/
def lookupLast (ps : List (String × α)) (k : String) : Option α :=
  lookupD ps.reverse k

def keysD (d : PyDict α) : List String := d.map Prod.fst

/-- The keys of `d` are pairwise distinct (every dict the manager builds
satisfies this). -/
def NodupKeys (d : PyDict α) : Prop := (keysD d).Nodup

instance (d : PyDict α) : Decidable (NodupKeys d) :=
  inferInstanceAs (Decidable (keysD d).Nodup)

/-! ## Language-server specs (`types.py` / `schema`) -/

/-- A language-server launch spec.  Only the `argv` field is inspected by the
manager (`spec.get("argv")`); an absent `argv` is modelled as `[]`, since both
are falsy in the comprehension that filters opted-out servers. -/
structure Spec where
  argv : List String
deriving DecidableEq

/-- Truthiness of `spec.get("argv")`. -/
def Spec.has_argv (s : Spec) : Bool := !s.argv.isEmpty

/-- One entry-point spec finder, as consumed by
`_autodetect_language_servers`.  `is_installed = none` models a finder
without the optional `is_installed` attribute (the `hasattr` check);
`some b` models a finder whose `is_installed(manager)` returns `b`.
Finders that fail to load, raise, or return schema-invalid specs are
skipped entry-by-entry by the source and are modelled as absent from the
provider list (the claims assume deterministic, well-behaved providers). -/
structure SpecFinder where
  is_installed : Option Bool
  specs : List (String × Spec)
deriving DecidableEq

/-- Whether `_autodetect_language_servers` keeps this finder: with
`only_installed` set, a finder exposing `is_installed` that reports `false`
is skipped; otherwise it is kept. -/
def keep_finder (only_installed : Bool) (p : SpecFinder) : Bool :=
  if only_installed then p.is_installed.getD true else true

/-- `_autodetect_language_servers(only_installed)`: the `(key, spec)` pairs
yielded by the kept finders, in finder order. -/
def autodetect_language_servers (providers : List SpecFinder)
    (only_installed : Bool) : List (String × Spec) :=
  (providers.filter (keep_finder only_installed)).flatMap (fun p => p.specs)

/-- The merged mapping `_collect_language_servers` builds before the final
`argv` filter: start empty, `update` with the autodetected pairs when
`autodetect` is on, then `update` with the static configuration already
updated by the conf.d (dynamic) configuration. -/
def merged_language_servers (static_config conf_d : PyDict Spec)
    (providers : List SpecFinder) (autodetect only_installed : Bool) :
    PyDict Spec :=
  let from_config := updateD static_config conf_d
  let with_auto : PyDict Spec :=
    if autodetect then
      updateD [] (autodetect_language_servers providers only_installed)
    else []
  updateD with_auto from_config

/-- `_collect_language_servers(only_installed)`: the merged mapping with
every spec whose `argv` is empty/absent removed (the user opt-out path). -/
def collect_language_servers (static_config conf_d : PyDict Spec)
    (providers : List SpecFinder) (autodetect only_installed : Bool) :
    PyDict Spec :=
  (merged_language_servers static_config conf_d providers autodetect
      only_installed).filter (fun kv => kv.2.has_argv)

/-- `self.language_servers` after `init_language_servers`: the operative
mapping, resolved with `only_installed=True`. -/
def language_servers (static_config conf_d : PyDict Spec)
    (providers : List SpecFinder) (autodetect : Bool) : PyDict Spec :=
  collect_language_servers static_config conf_d providers autodetect true

/-- `self.all_language_servers` after `init_language_servers`: the
all-known mapping, resolved with `only_installed=False`. -/
def all_language_servers (static_config conf_d : PyDict Spec)
    (providers : List SpecFinder) (autodetect : Bool) : PyDict Spec :=
  collect_language_servers static_config conf_d providers autodetect false

/-- The discovered (autodetected) mapping as a dict: the result of inserting
the autodetected pairs in order into an empty dict. -/
def discovered_language_servers (providers : List SpecFinder)
    (only_installed : Bool) : PyDict Spec :=
  updateD [] (autodetect_language_servers providers only_installed)

/-! ## Handlers, listeners and events -/

/-- A client connection endpoint (a websocket handler): identified by the
`ServerKey` it is bound to (`language_server`) and by identity (`id`) for
set membership. -/
structure Handler where
  language_server : String
  id : Nat
deriving DecidableEq

/-- Message scope of a listener (`MessageScope` in `types.py`). -/
inductive MessageScope where
  | all
  | client
  | server
deriving DecidableEq

/-- The registered listeners, one ordered sequence per scope (opaque
callables are identified by `Nat` ids). -/
structure Listeners where
  all : List Nat
  client : List Nat
  server : List Nat
deriving DecidableEq

def Listeners.of_scope (ls : Listeners) : MessageScope → List Nat
  | .all => ls.all
  | .client => ls.client
  | .server => ls.server

/-- Externally visible events of a broker operation, in occurrence order. -/
inductive Event where
  /-- a listener (registered under `scope`, with id `l`) completed its
  invocation for `msg` routed to `key` -/
  | listenerDone (scope : MessageScope) (l : Nat) (msg : String) (key : String)
  /-- `self.log.error(...)` -/
  | logError (key : String) (text : String)
  /-- `session.write(message)` for the session keyed by `key` -/
  | sessionWrite (key : String) (msg : String)
  /-- `handler.write_message(message)` -/
  | handlerWrite (h : Handler) (msg : String)
deriving DecidableEq

/-- Modelled from the spec: `wait_for_listeners` lives on the
`LanguageServerManagerAPI` base class (`types.py`), which is not part of the
source file at hand.  Per the spec (section 4.3, ListenerBus), dispatching a
scope invokes, in registration order, every callable registered under that
scope and every callable registered under `ALL`, and the caller suspends
until all invoked callables have completed.  The returned trace lists one
completion event per invoked listener, in invocation order. -/
def wait_for_listeners (ls : Listeners) (scope : MessageScope) (msg : String)
    (key : String) : List Event :=
  (ls.of_scope scope).map (fun l => Event.listenerDone scope l msg key)
    ++ ls.all.map (fun l => Event.listenerDone .all l msg key)

/-! ## Subscription and message forwarding (`manager.py`) -/

/-- The broker's session table: `self.sessions`, keyed by language-server
name.  A session is represented by its mutable subscriber collection
(`session.handlers`); the session's process resource is opaque. -/
abbrev Sessions := PyDict (List Handler)

/-- `subscribe(handler)`: look up the session for the handler's key; if
absent, log an error and leave the table unchanged; otherwise replace the
session's handler collection by `set([handler]) | session.handlers`
(set union, modelled by `List.insert` on the collection). -/
def subscribe (sessions : Sessions) (h : Handler) : Sessions × List Event :=
  match lookupD sessions h.language_server with
  | none =>
      (sessions,
        [Event.logError h.language_server
          "no session: handler subscription failed"])
  | some hs =>
      (insertD sessions h.language_server (hs.insert h), [])

/-- `unsubscribe(handler)`: look up the session for the handler's key; if
absent, log an error and leave the table unchanged; otherwise replace the
session's handler collection by the list of its members different from
`handler` (the source's list comprehension). -/
def unsubscribe (sessions : Sessions) (h : Handler) : Sessions × List Event :=
  match lookupD sessions h.language_server with
  | none =>
      (sessions,
        [Event.logError h.language_server
          "no session: handler unsubscription failed"])
  | some hs =>
      (insertD sessions h.language_server (hs.filter (fun x => x ≠ h)), [])

/-- `on_client_message(message, handler)`: await the CLIENT-scope listener
dispatch for the message, then look the session up; if absent, log and drop
the message; otherwise `session.write(message)`.  The session table is
never changed; the returned trace is the ordered list of events. -/
def on_client_message (ls : Listeners) (sessions : Sessions) (msg : String)
    (h : Handler) : Sessions × List Event :=
  let evs := wait_for_listeners ls .client msg h.language_server
  match lookupD sessions h.language_server with
  | none =>
      (sessions,
        evs ++ [Event.logError h.language_server
          "no session: client message dropped"])
  | some _ =>
      (sessions, evs ++ [Event.sessionWrite h.language_server msg])

/-- The broadcast loop of `on_server_message`
(`for handler in session.handlers: handler.write_message(message)`), with
no exception handling around the deliver call.  `fails h` models
`h.write_message` raising.  Returns the delivery events that happened and
the handler whose deliver call raised, if any: the loop stops at the first
failure and the exception propagates. -/
def broadcast_handlers (fails : Handler → Bool) (msg : String) :
    List Handler → List Event × Option Handler
  | [] => ([], none)
  | h :: rest =>
      if fails h then ([], some h)
      else
        let r := broadcast_handlers fails msg rest
        (Event.handlerWrite h msg :: r.1, r.2)

/-- Run a batch of concurrent `unsubscribe` calls against the session
table (their log events are the environment's, not the broker's, and are
dropped here). -/
def apply_unsubs (sessions : Sessions) (us : List Handler) : Sessions :=
  us.foldl (fun s h => (unsubscribe s h).1) sessions

/-- The broadcast loop of `on_server_message` iterating the handler
collection `captured`, read once from the session when the loop starts
(a Python `for` holds the collection object; `unsubscribe` rebinds
`session.handlers` to a new list and never mutates the old one).  Between
consecutive deliveries the environment may run a batch of `unsubscribe`
calls (`unsubs`), which update the session table but not `captured`. -/
def broadcast_interleaved (msg : String) :
    List Handler → List (List Handler) → Sessions → List Event × Sessions
  | [], _, s => ([], s)
  | h :: rest, unsubs, s =>
      let s' := apply_unsubs s (unsubs.headD [])
      let r := broadcast_interleaved msg rest unsubs.tail s'
      (Event.handlerWrite h msg :: r.1, r.2)

/-- `on_server_message(message, session)` for the session keyed by `key`,
run against an environment that performs concurrent `unsubscribe` calls:
`during_listeners` are unsubscribed while the SERVER-scope listener
dispatch is awaited (the only suspension points), and `during_broadcast`
are unsubscribed between the synchronous deliveries of the broadcast loop.
The reverse lookup of the session's keys yields exactly `key` (sessions
are keyed 1:1 at initialization).  The handler collection is read once
when the broadcast loop starts. -/
def on_server_message (ls : Listeners) (sessions : Sessions) (key : String)
    (msg : String) (during_listeners : List Handler)
    (during_broadcast : List (List Handler)) : List Event × Sessions :=
  let listener_evs := wait_for_listeners ls .server msg key
  let s1 := apply_unsubs sessions during_listeners
  let captured := (lookupD s1 key).getD []
  let r := broadcast_interleaved msg captured during_broadcast s1
  (listener_evs ++ r.1, r.2)

/-! ## Initialization (`initialize`, `init_*`) -/

/-- The three initialization steps, named after the `init_*` methods. -/
inductive InitStep where
  | resolveSpecs
  | registerListeners
  | buildSessions
deriving DecidableEq

/-- The broker's state touched by initialization. -/
structure ManagerState where
  /-- the operative resolved mapping (`self.language_servers`) -/
  language_servers : PyDict Spec
  /-- the all-known resolved mapping (`self.all_language_servers`) -/
  all_language_servers : PyDict Spec
  /-- the registered listeners -/
  listeners : Listeners
  /-- `self.sessions` -/
  sessions : Sessions
deriving DecidableEq

/-- `init_language_servers`: resolve the operative and the all-known
mapping (`only_installed` true resp. false). -/
def init_language_servers (static_config conf_d : PyDict Spec)
    (providers : List SpecFinder) (autodetect : Bool) (st : ManagerState) :
    ManagerState × List InitStep :=
  ({ st with
      language_servers :=
        collect_language_servers static_config conf_d providers autodetect true
      all_language_servers :=
        collect_language_servers static_config conf_d providers autodetect
          false },
    [InitStep.resolveSpecs])

/-- `init_listeners`: register the configured listeners (scope-keyed lists,
appended to whatever is already registered; entry-point loading failures
are skipped and modelled as absent). -/
def init_listeners (configured : Listeners) (st : ManagerState) :
    ManagerState × List InitStep :=
  ({ st with
      listeners :=
        { all := st.listeners.all ++ configured.all
          client := st.listeners.client ++ configured.client
          server := st.listeners.server ++ configured.server } },
    [InitStep.registerListeners])

/-- `init_sessions`: create one session (with an initially empty handler
collection) per key of the resolved operative mapping. -/
def init_sessions (st : ManagerState) : ManagerState × List InitStep :=
  ({ st with
      sessions := st.language_servers.map (fun kv => (kv.1, ([] : List Handler))) },
    [InitStep.buildSessions])

/-- `initialize`: run the three `init_*` methods in source order and
return the final state together with the ordered step trace. -/
def run_init (static_config conf_d : PyDict Spec)
    (providers : List SpecFinder) (autodetect : Bool)
    (configured : Listeners) (st : ManagerState) :
    ManagerState × List InitStep :=
  let r1 := init_language_servers static_config conf_d providers autodetect st
  let r2 := init_listeners configured r1.1
  let r3 := init_sessions r2.1
  (r3.1, r1.2 ++ r2.2 ++ r3.2)

/-! ## Dict lemmas -/

@[simp] theorem orO_none (b : Option α) : orO none b = b := rfl

@[simp] theorem orO_some (v : α) (b : Option α) : orO (some v) b = some v := rfl

theorem orO_assoc (a b c : Option α) :
    orO (orO a b) c = orO a (orO b c) := by
  cases a <;> rfl

theorem lookupD_append (a b : PyDict α) (k : String) :
    lookupD (a ++ b) k = orO (lookupD a k) (lookupD b k) := by
  induction a with
  | nil => rfl
  | cons hd tl ih =>
      obtain ⟨k', v⟩ := hd
      by_cases h : k' = k <;> simp [lookupD, h, ih]

theorem lookupD_insertD (d : PyDict α) (k k' : String) (v : α) :
    lookupD (insertD d k v) k' = if k = k' then some v else lookupD d k' := by
  induction d with
  | nil =>
      by_cases h : k = k' <;> simp [insertD, lookupD, h]
  | cons hd tl ih =>
      obtain ⟨k'', v''⟩ := hd
      by_cases h1 : k'' = k
      · subst h1
        by_cases h2 : k'' = k' <;> simp [insertD, lookupD, h2]
      · by_cases h2 : k'' = k'
        · subst h2
          have : ¬ k = k'' := fun h => h1 h.symm
          simp [insertD, lookupD, h1, this]
        · simp [insertD, lookupD, h1, h2, ih]

@[simp] theorem lookupLast_nil (k : String) :
    lookupLast ([] : List (String × α)) k = none := rfl

theorem lookupLast_cons (k0 : String) (v0 : α) (ps : List (String × α))
    (k : String) :
    lookupLast ((k0, v0) :: ps) k =
      orO (lookupLast ps k) (if k0 = k then some v0 else none) := by
  unfold lookupLast
  rw [List.reverse_cons, lookupD_append]
  cases h : lookupD ps.reverse k <;> simp [lookupD, h]

theorem lookupLast_append (ps qs : List (String × α)) (k : String) :
    lookupLast (ps ++ qs) k = orO (lookupLast qs k) (lookupLast ps k) := by
  unfold lookupLast
  rw [List.reverse_append, lookupD_append]

theorem lookupD_updateD (d : PyDict α) (ps : List (String × α)) (k : String) :
    lookupD (updateD d ps) k = orO (lookupLast ps k) (lookupD d k) := by
  induction ps generalizing d with
  | nil => rfl
  | cons hd tl ih =>
      obtain ⟨k0, v0⟩ := hd
      show lookupD (updateD (insertD d k0 v0) tl) k = _
      rw [ih, lookupD_insertD, lookupLast_cons, orO_assoc]
      cases h : lookupLast tl k
      · by_cases hk : k0 = k <;> simp [hk]
      · rfl

@[simp] theorem keysD_nil : keysD ([] : PyDict α) = [] := rfl

@[simp] theorem keysD_cons (k0 : String) (v0 : α) (tl : PyDict α) :
    keysD ((k0, v0) :: tl) = k0 :: keysD tl := rfl

theorem nodupKeys_cons_iff {k0 : String} {v0 : α} {tl : PyDict α} :
    NodupKeys ((k0, v0) :: tl) ↔ k0 ∉ keysD tl ∧ NodupKeys tl := by
  simp [NodupKeys, List.nodup_cons]

theorem lookupD_mem_keys {d : PyDict α} {k : String} {v : α}
    (h : lookupD d k = some v) : k ∈ keysD d := by
  induction d with
  | nil => simp [lookupD] at h
  | cons hd tl ih =>
      obtain ⟨k', v'⟩ := hd
      by_cases hk : k' = k
      · simp [hk]
      · simp only [lookupD, if_neg hk] at h
        simp [ih h]

theorem lookupD_eq_none_of_not_mem {d : PyDict α} {k : String}
    (h : k ∉ keysD d) : lookupD d k = none := by
  cases hl : lookupD d k with
  | none => rfl
  | some v => exact absurd (lookupD_mem_keys hl) h

theorem lookupLast_mem_keys {ps : List (String × α)} {k : String} {v : α}
    (h : lookupLast ps k = some v) : k ∈ keysD ps := by
  have := lookupD_mem_keys h
  simpa [keysD] using this

theorem lookupLast_eq_none_of_not_mem {ps : List (String × α)} {k : String}
    (h : k ∉ keysD ps) : lookupLast ps k = none := by
  apply lookupD_eq_none_of_not_mem
  simpa [keysD] using h

theorem lookupLast_eq_lookupD {ps : List (String × α)} (hps : NodupKeys ps)
    (k : String) : lookupLast ps k = lookupD ps k := by
  induction ps with
  | nil => rfl
  | cons hd tl ih =>
      obtain ⟨k0, v0⟩ := hd
      obtain ⟨hk0, hnd⟩ := nodupKeys_cons_iff.mp hps
      rw [lookupLast_cons, ih hnd]
      by_cases h : k0 = k
      · subst h
        rw [lookupD_eq_none_of_not_mem hk0]
        simp [lookupD]
      · cases hl : lookupD tl k <;> simp [lookupD, h, hl]

theorem mem_keysD_insertD (d : PyDict α) (k k' : String) (v : α) :
    k' ∈ keysD (insertD d k v) ↔ k' ∈ keysD d ∨ k' = k := by
  induction d with
  | nil => simp [insertD]
  | cons hd tl ih =>
      obtain ⟨k'', v''⟩ := hd
      by_cases h : k'' = k
      · subst h
        have heq : insertD ((k'', v'') :: tl) k'' v = (k'', v) :: tl := by
          simp [insertD]
        rw [heq]
        simp only [keysD_cons, List.mem_cons]
        tauto
      · simp only [insertD, if_neg h, keysD_cons, List.mem_cons]
        rw [ih]
        tauto

theorem nodupKeys_insertD (k : String) (v : α) :
    ∀ d : PyDict α, NodupKeys d → NodupKeys (insertD d k v)
  | [], _ => by simp [insertD, NodupKeys]
  | (k'', v'') :: tl, hd => by
      obtain ⟨h1, h2⟩ := nodupKeys_cons_iff.mp hd
      by_cases h : k'' = k
      · subst h
        simp only [insertD, if_pos rfl]
        exact nodupKeys_cons_iff.mpr ⟨h1, h2⟩
      · simp only [insertD, if_neg h]
        refine nodupKeys_cons_iff.mpr ⟨?_, nodupKeys_insertD k v tl h2⟩
        intro hm
        rcases (mem_keysD_insertD tl k k'' v).mp hm with h4 | h4
        · exact h1 h4
        · exact h h4

theorem nodupKeys_updateD {d : PyDict α} (hd : NodupKeys d)
    (ps : List (String × α)) : NodupKeys (updateD d ps) := by
  induction ps generalizing d with
  | nil => exact hd
  | cons hd0 tl ih =>
      obtain ⟨k0, v0⟩ := hd0
      exact ih (nodupKeys_insertD k0 v0 d hd)

theorem lookupD_filter {p : String × α → Bool} {d : PyDict α}
    (hd : NodupKeys d) (k : String) :
    lookupD (d.filter p) k =
      (lookupD d k).bind (fun v => if p (k, v) then some v else none) := by
  induction d with
  | nil => rfl
  | cons hd0 tl ih =>
      obtain ⟨k0, v0⟩ := hd0
      obtain ⟨h1, h2⟩ := nodupKeys_cons_iff.mp hd
      by_cases hk : k0 = k
      · subst hk
        have htlf : lookupD (tl.filter p) k0 = none := by
          apply lookupD_eq_none_of_not_mem
          intro hm
          apply h1
          simp only [keysD, List.mem_map] at hm ⊢
          obtain ⟨kv, hkv, hfst⟩ := hm
          exact ⟨kv, (List.mem_filter.mp hkv).1, hfst⟩
        by_cases hp : p (k0, v0)
        · simp [List.filter_cons, hp, lookupD]
        · simp [List.filter_cons, hp, lookupD, htlf]
      · by_cases hp : p (k0, v0)
        · simp [List.filter_cons, hp, lookupD, hk, ih h2]
        · simp [List.filter_cons, hp, lookupD, hk, ih h2]

/-! ## Spec-resolution lemmas -/

theorem orO_none_right (a : Option α) : orO a none = a := by
  cases a <;> rfl

theorem nodupKeys_nil : NodupKeys ([] : PyDict α) := by
  simp [NodupKeys]

theorem lookupD_discovered (p : List SpecFinder) (oi : Bool) (k : String) :
    lookupD (discovered_language_servers p oi) k =
      lookupLast (autodetect_language_servers p oi) k := by
  show lookupD (updateD [] (autodetect_language_servers p oi)) k = _
  rw [lookupD_updateD]
  cases lookupLast (autodetect_language_servers p oi) k <;> rfl

theorem lookupD_merged (s c : PyDict Spec) (p : List SpecFinder)
    (ad oi : Bool) (k : String) :
    lookupD (merged_language_servers s c p ad oi) k =
      orO (lookupLast (updateD s c) k)
        (if ad then lookupLast (autodetect_language_servers p oi) k
         else none) := by
  cases ad
  · show lookupD (updateD ([] : PyDict Spec) (updateD s c)) k = _
    rw [lookupD_updateD]
    rfl
  · show lookupD
        (updateD (updateD [] (autodetect_language_servers p oi)) (updateD s c))
        k = _
    rw [lookupD_updateD, lookupD_updateD]
    cases lookupLast (updateD s c) k <;>
      cases lookupLast (autodetect_language_servers p oi) k <;> rfl

theorem nodupKeys_merged (s c : PyDict Spec) (p : List SpecFinder)
    (ad oi : Bool) : NodupKeys (merged_language_servers s c p ad oi) := by
  cases ad
  · show NodupKeys (updateD ([] : PyDict Spec) (updateD s c))
    exact nodupKeys_updateD nodupKeys_nil _
  · show NodupKeys
      (updateD (updateD [] (autodetect_language_servers p oi)) (updateD s c))
    exact nodupKeys_updateD (nodupKeys_updateD nodupKeys_nil _) _

/-! ## Claim C1 -/

/-- Claim C1: for every server key, the pre-filter merged mapping built by
`_collect_language_servers` takes the dynamic (conf.d) configuration entry
when one exists for that key, otherwise the static configuration entry,
otherwise the autodetected (discovered) entry: dynamic configuration
overrides static configuration on key collision, and the merged
configuration overrides autodetection key-by-key (stated with autodetection
enabled; the configuration dicts, being real Python dicts, have distinct
keys). -/
theorem c1_merged_precedence (s c : PyDict Spec) (p : List SpecFinder)
    (oi : Bool) (k : String) (hs : NodupKeys s) (hc : NodupKeys c) :
    lookupD (merged_language_servers s c p true oi) k =
      orO (lookupD c k)
        (orO (lookupD s k) (lookupD (discovered_language_servers p oi) k)) := by
  have hm := lookupD_merged s c p true oi k
  rw [if_pos rfl] at hm
  rw [hm, lookupLast_eq_lookupD (nodupKeys_updateD hs c) k, lookupD_updateD,
    lookupLast_eq_lookupD hc, lookupD_discovered, orO_assoc]

/-- Witness for C1 at a concrete configuration: the dynamic entry for
`"py"` wins over both the static and the discovered entry. -/
theorem c1_merged_precedence_witness :
    NodupKeys ([("py", Spec.mk ["st"]), ("r", Spec.mk ["rs"])] : PyDict Spec) ∧
    NodupKeys ([("py", Spec.mk ["dyn"])] : PyDict Spec) ∧
    lookupD
      (merged_language_servers [("py", Spec.mk ["st"]), ("r", Spec.mk ["rs"])]
        [("py", Spec.mk ["dyn"])]
        [⟨none, [("py", Spec.mk ["auto"]), ("jl", Spec.mk ["jl"])]⟩] true true)
      "py" =
      orO (lookupD [("py", Spec.mk ["dyn"])] "py")
        (orO (lookupD [("py", Spec.mk ["st"]), ("r", Spec.mk ["rs"])] "py")
          (lookupD
            (discovered_language_servers
              [⟨none, [("py", Spec.mk ["auto"]), ("jl", Spec.mk ["jl"])]⟩]
              true) "py")) :=
  ⟨by decide, by decide,
    c1_merged_precedence [("py", Spec.mk ["st"]), ("r", Spec.mk ["rs"])]
      [("py", Spec.mk ["dyn"])]
      [⟨none, [("py", Spec.mk ["auto"]), ("jl", Spec.mk ["jl"])]⟩] true "py"
      (by decide) (by decide)⟩

/-! ## Claim C2 -/

/-- Claim C2: for every spec whose `argv` is empty (or absent, modelled as
empty), the resolved mapping returned by `_collect_language_servers`
excludes that spec's key — regardless of which source the winning merged
entry came from, since the hypothesis quantifies over the merged mapping. -/
theorem c2_empty_argv_excluded (s c : PyDict Spec) (p : List SpecFinder)
    (ad oi : Bool) (k : String) (sp : Spec)
    (hm : lookupD (merged_language_servers s c p ad oi) k = some sp)
    (ha : sp.argv = []) :
    lookupD (collect_language_servers s c p ad oi) k = none := by
  show lookupD
      ((merged_language_servers s c p ad oi).filter (fun kv => kv.2.has_argv))
      k = none
  rw [lookupD_filter (nodupKeys_merged s c p ad oi) k, hm]
  simp [Spec.has_argv, ha]

/-- Witness for C2: the spec's own scenario — discovered
`{"py": {"argv": ["pyls"]}}`, empty static configuration, dynamic
configuration `{"py": {"argv": []}}` — resolves to a mapping without
`"py"` (opt-out wins). -/
theorem c2_empty_argv_excluded_witness :
    lookupD
      (merged_language_servers [] [("py", Spec.mk [])]
        [⟨none, [("py", Spec.mk ["pyls"])]⟩] true true) "py" =
      some (Spec.mk []) ∧
    lookupD
      (collect_language_servers [] [("py", Spec.mk [])]
        [⟨none, [("py", Spec.mk ["pyls"])]⟩] true true) "py" = none :=
  ⟨by decide,
    c2_empty_argv_excluded [] [("py", Spec.mk [])]
      [⟨none, [("py", Spec.mk ["pyls"])]⟩] true true "py" (Spec.mk [])
      (by decide) rfl⟩

/-! ## Claim C8 -/

theorem keysD_append (a b : PyDict α) : keysD (a ++ b) = keysD a ++ keysD b := by
  simp [keysD]

theorem autodetect_cons (q : SpecFinder) (rest : List SpecFinder) (oi : Bool) :
    autodetect_language_servers (q :: rest) oi =
      (if keep_finder oi q then q.specs else []) ++
        autodetect_language_servers rest oi := by
  unfold autodetect_language_servers
  by_cases h : keep_finder oi q = true <;> simp [List.filter_cons, h]

theorem mem_keysD_autodetect {p : List SpecFinder} {oi : Bool} {k : String}
    (h : k ∈ keysD (autodetect_language_servers p oi)) :
    ∃ q ∈ p, k ∈ keysD q.specs := by
  induction p with
  | nil => simp [autodetect_language_servers, keysD] at h
  | cons q rest ih =>
      rw [autodetect_cons, keysD_append, List.mem_append] at h
      rcases h with h | h
      · by_cases hk : keep_finder oi q = true
        · rw [if_pos hk] at h
          exact ⟨q, List.mem_cons_self q rest, h⟩
        · rw [if_neg hk] at h
          simp [keysD] at h
      · obtain ⟨b, hb, hkb⟩ := ih h
        exact ⟨b, List.mem_cons_of_mem q hb, hkb⟩

theorem lookupLast_autodetect_mono (p : List SpecFinder) (k : String)
    (sp : Spec)
    (hdisj : p.Pairwise (fun a b => ∀ k' ∈ keysD a.specs, k' ∉ keysD b.specs))
    (h : lookupLast (autodetect_language_servers p true) k = some sp) :
    lookupLast (autodetect_language_servers p false) k = some sp := by
  induction p with
  | nil => simp [autodetect_language_servers] at h
  | cons q rest ih =>
      obtain ⟨hq, htl⟩ := List.pairwise_cons.mp hdisj
      rw [autodetect_cons, lookupLast_append] at h
      have hkf : keep_finder false q = true := by rfl
      rw [autodetect_cons, if_pos hkf, lookupLast_append]
      cases hrest : lookupLast (autodetect_language_servers rest true) k with
      | some v =>
          rw [hrest, orO_some] at h
          injection h with h
          subst h
          rw [ih htl hrest]
          rfl
      | none =>
          rw [hrest, orO_none] at h
          by_cases hk : keep_finder true q = true
          · rw [if_pos hk] at h
            have hkmem : k ∈ keysD q.specs := lookupLast_mem_keys h
            have hnone :
                lookupLast (autodetect_language_servers rest false) k = none := by
              apply lookupLast_eq_none_of_not_mem
              intro hmem
              obtain ⟨b, hb, hkb⟩ := mem_keysD_autodetect hmem
              exact hq b hb k hkmem hkb
            rw [hnone, orO_none, h]
          · rw [if_neg hk] at h
            simp at h

/-- Counterexample to claim C8 as stated: two deterministic spec finders
both yield key `"py"`.  The installed one yields `argv = ["b"]`, the
not-installed one (iterated later) yields `argv = ["a"]`.  With
`only_installed=True` the key resolves to the installed finder's spec,
but with `only_installed=False` the later finder's pairs overwrite it, so
the key is present in `all_language_servers` with a *different* spec. -/
theorem c8_installed_submapping_cex :
    lookupD
      (language_servers [] []
        [⟨some true, [("py", Spec.mk ["b"])]⟩,
         ⟨some false, [("py", Spec.mk ["a"])]⟩] true) "py" =
      some (Spec.mk ["b"]) ∧
    lookupD
      (all_language_servers [] []
        [⟨some true, [("py", Spec.mk ["b"])]⟩,
         ⟨some false, [("py", Spec.mk ["a"])]⟩] true) "py" =
      some (Spec.mk ["a"]) ∧
    Spec.mk ["a"] ≠ Spec.mk ["b"] := by
  refine ⟨by decide, by decide, by decide⟩

/-- Claim C8, amended: assuming deterministic spec providers *whose
yielded key sets are pairwise disjoint*, the operative mapping resolved
with `only_installed=true` is a sub-mapping of the all-known mapping
resolved with `only_installed=false`: every key of `language_servers` is
present in `all_language_servers` with the same spec. -/
theorem c8_installed_submapping (s c : PyDict Spec) (p : List SpecFinder)
    (ad : Bool) (k : String) (sp : Spec)
    (hdisj : p.Pairwise (fun a b => ∀ k' ∈ keysD a.specs, k' ∉ keysD b.specs))
    (h : lookupD (language_servers s c p ad) k = some sp) :
    lookupD (all_language_servers s c p ad) k = some sp := by
  have hextract :
      lookupD (merged_language_servers s c p ad true) k = some sp ∧
        sp.has_argv = true := by
    unfold language_servers collect_language_servers at h
    rw [lookupD_filter (nodupKeys_merged s c p ad true) k] at h
    cases hmt : lookupD (merged_language_servers s c p ad true) k with
    | none => rw [hmt] at h; simp at h
    | some v =>
        rw [hmt] at h
        by_cases hv : v.has_argv = true
        · have hvs : v = sp := by simpa [hv] using h
          subst hvs
          exact ⟨rfl, hv⟩
        · simp [hv] at h
  obtain ⟨hmt, hargv⟩ := hextract
  have hmf : lookupD (merged_language_servers s c p ad false) k = some sp := by
    rw [lookupD_merged] at hmt ⊢
    cases hcfg : lookupLast (updateD s c) k with
    | some v =>
        rw [hcfg] at hmt
        exact hmt
    | none =>
        rw [hcfg, orO_none] at hmt
        rw [orO_none]
        cases ad with
        | false => simp at hmt
        | true =>
            rw [if_pos rfl] at hmt ⊢
            exact lookupLast_autodetect_mono p k sp hdisj hmt
  unfold all_language_servers collect_language_servers
  rw [lookupD_filter (nodupKeys_merged s c p ad false) k, hmf]
  simp [hargv]

/-- Witness for the amended C8: two providers with disjoint key sets; the
key the only-installed pass resolves is present, with the same spec, in
the all-known pass. -/
theorem c8_installed_submapping_witness :
    lookupD
      (language_servers [("r", Spec.mk ["rr"])] []
        [⟨some false, [("py", Spec.mk ["x"])]⟩,
         ⟨none, [("jl", Spec.mk ["j"])]⟩] true) "jl" = some (Spec.mk ["j"]) ∧
    lookupD
      (all_language_servers [("r", Spec.mk ["rr"])] []
        [⟨some false, [("py", Spec.mk ["x"])]⟩,
         ⟨none, [("jl", Spec.mk ["j"])]⟩] true) "jl" = some (Spec.mk ["j"]) :=
  ⟨by decide,
    c8_installed_submapping [("r", Spec.mk ["rr"])] []
      [⟨some false, [("py", Spec.mk ["x"])]⟩,
       ⟨none, [("jl", Spec.mk ["j"])]⟩] true "jl" (Spec.mk ["j"])
      (by decide) (by decide)⟩

/-! ## Subscription lemmas -/

theorem subscribe_live {sessions : Sessions} {h : Handler} {hs : List Handler}
    (hlive : lookupD sessions h.language_server = some hs) :
    subscribe sessions h =
      (insertD sessions h.language_server (hs.insert h), []) := by
  unfold subscribe
  rw [hlive]

theorem unsubscribe_live {sessions : Sessions} {h : Handler}
    {hs : List Handler}
    (hlive : lookupD sessions h.language_server = some hs) :
    unsubscribe sessions h =
      (insertD sessions h.language_server (hs.filter (fun x => x ≠ h)), []) := by
  unfold unsubscribe
  rw [hlive]

theorem subscribe_dead {sessions : Sessions} {h : Handler}
    (hdead : lookupD sessions h.language_server = none) :
    subscribe sessions h =
      (sessions,
        [Event.logError h.language_server
          "no session: handler subscription failed"]) := by
  unfold subscribe
  rw [hdead]

theorem unsubscribe_dead {sessions : Sessions} {h : Handler}
    (hdead : lookupD sessions h.language_server = none) :
    unsubscribe sessions h =
      (sessions,
        [Event.logError h.language_server
          "no session: handler unsubscription failed"]) := by
  unfold unsubscribe
  rw [hdead]

/-! ## Claim C5 -/

/-- Counterexample to claim C5 as stated: when the prior subscriber set
already contains `H`, `subscribe(H)` leaves it unchanged (set union) and
`unsubscribe(H)` then removes `H`, so the round trip does *not* restore
the prior set. -/
theorem c5_roundtrip_cex :
    ¬ (∀ x : Handler,
        x ∈ (lookupD
              ((unsubscribe
                ((subscribe [("py", [Handler.mk "py" 0])]
                  (Handler.mk "py" 0)).1)
                (Handler.mk "py" 0)).1) "py").getD [] ↔
        x ∈ (lookupD [("py", [Handler.mk "py" 0])] "py").getD []) := by
  intro hall
  have hmem := (hall (Handler.mk "py" 0)).mpr
  exact absurd (hmem (by decide)) (by decide)

/-- Claim C5, amended: for a handler whose key has a live session,
`subscribe(H)` followed by `unsubscribe(H)` leaves the session's
subscriber set equal to the prior set *with `H` removed*; in particular
it equals the prior set exactly when `H` was not already subscribed. -/
theorem c5_subscribe_unsubscribe_roundtrip (sessions : Sessions)
    (h : Handler) (hs : List Handler)
    (hlive : lookupD sessions h.language_server = some hs) :
    (∀ x, x ∈ (lookupD ((unsubscribe (subscribe sessions h).1 h).1)
        h.language_server).getD [] ↔ (x ∈ hs ∧ x ≠ h)) ∧
    (h ∉ hs →
      ∀ x, x ∈ (lookupD ((unsubscribe (subscribe sessions h).1 h).1)
          h.language_server).getD [] ↔ x ∈ hs) := by
  have h1 := subscribe_live hlive
  have h2 : lookupD (insertD sessions h.language_server (hs.insert h))
      h.language_server = some (hs.insert h) := by
    rw [lookupD_insertD]
    simp
  have hres : (unsubscribe (subscribe sessions h).1 h).1 =
      insertD (insertD sessions h.language_server (hs.insert h))
        h.language_server ((hs.insert h).filter (fun x => x ≠ h)) := by
    rw [h1]
    show (unsubscribe (insertD sessions h.language_server (hs.insert h)) h).1 = _
    rw [unsubscribe_live h2]
  have hlook : lookupD ((unsubscribe (subscribe sessions h).1 h).1)
      h.language_server = some ((hs.insert h).filter (fun x => x ≠ h)) := by
    rw [hres, lookupD_insertD]
    simp
  have hmain : ∀ x, x ∈ (lookupD ((unsubscribe (subscribe sessions h).1 h).1)
      h.language_server).getD [] ↔ (x ∈ hs ∧ x ≠ h) := by
    intro x
    rw [hlook]
    simp only [Option.getD_some, List.mem_filter, List.mem_insert_iff,
      decide_eq_true_eq]
    constructor
    · rintro ⟨hx | hx, hne⟩
      · exact absurd hx hne
      · exact ⟨hx, hne⟩
    · rintro ⟨hx, hne⟩
      exact ⟨Or.inr hx, hne⟩
  refine ⟨hmain, fun hnot x => ?_⟩
  rw [hmain x]
  constructor
  · rintro ⟨hx, _⟩
    exact hx
  · intro hx
    refine ⟨hx, fun heq => hnot ?_⟩
    rw [← heq]
    exact hx

/-- Witness for the amended C5: with prior subscriber set `[H']` (not
containing `H`), the round trip for `H` leaves a set with the same
members. -/
theorem c5_subscribe_unsubscribe_roundtrip_witness :
    lookupD [("py", [Handler.mk "py" 1])] "py" = some [Handler.mk "py" 1] ∧
    (Handler.mk "py" 0 ∉ [Handler.mk "py" 1] ∧
      ∀ x, x ∈ (lookupD
          ((unsubscribe
            ((subscribe [("py", [Handler.mk "py" 1])] (Handler.mk "py" 0)).1)
            (Handler.mk "py" 0)).1) "py").getD [] ↔
        x ∈ [Handler.mk "py" 1]) :=
  ⟨by decide, by decide,
    (c5_subscribe_unsubscribe_roundtrip [("py", [Handler.mk "py" 1])]
        (Handler.mk "py" 0) [Handler.mk "py" 1] (by decide)).2 (by decide)⟩

/-! ## Claim C7 -/

theorem mem_wait_for_listeners {ls : Listeners} {sc : MessageScope}
    {m k : String} {e : Event} (he : e ∈ wait_for_listeners ls sc m k) :
    ∃ sc' l, e = Event.listenerDone sc' l m k := by
  unfold wait_for_listeners at he
  rcases List.mem_append.mp he with hm | hm
  · obtain ⟨l, _, rfl⟩ := List.mem_map.mp hm
    exact ⟨sc, l, rfl⟩
  · obtain ⟨l, _, rfl⟩ := List.mem_map.mp hm
    exact ⟨.all, l, rfl⟩

theorem on_client_message_dead {ls : Listeners} {sessions : Sessions}
    {msg : String} {h : Handler}
    (hdead : lookupD sessions h.language_server = none) :
    on_client_message ls sessions msg h =
      (sessions,
        wait_for_listeners ls .client msg h.language_server ++
          [Event.logError h.language_server
            "no session: client message dropped"]) := by
  unfold on_client_message
  rw [hdead]

/-- Claim C7: for a handler whose key has no live session, `subscribe`,
`unsubscribe` and `on_client_message` each log an error, leave the session
table (hence every subscriber set) unchanged and return normally, and
`on_client_message` drops the message: no `session.write` occurs in its
trace. -/
theorem c7_no_session_noop (ls : Listeners) (sessions : Sessions)
    (msg : String) (h : Handler)
    (hdead : lookupD sessions h.language_server = none) :
    subscribe sessions h =
      (sessions,
        [Event.logError h.language_server
          "no session: handler subscription failed"]) ∧
    unsubscribe sessions h =
      (sessions,
        [Event.logError h.language_server
          "no session: handler unsubscription failed"]) ∧
    on_client_message ls sessions msg h =
      (sessions,
        wait_for_listeners ls .client msg h.language_server ++
          [Event.logError h.language_server
            "no session: client message dropped"]) ∧
    ∀ k m, Event.sessionWrite k m ∉ (on_client_message ls sessions msg h).2 := by
  refine ⟨subscribe_dead hdead, unsubscribe_dead hdead,
    on_client_message_dead hdead, ?_⟩
  intro k m hmem
  rw [on_client_message_dead hdead] at hmem
  rcases List.mem_append.mp hmem with hm | hm
  · obtain ⟨sc', l, heq⟩ := mem_wait_for_listeners hm
    exact Event.noConfusion heq
  · rcases List.mem_singleton.mp hm with heq
    exact Event.noConfusion heq

/-- Witness for C7 on an empty session table. -/
theorem c7_no_session_noop_witness :
    lookupD ([] : Sessions) "py" = none ∧
    subscribe ([] : Sessions) (Handler.mk "py" 0) =
      (([] : Sessions),
        [Event.logError "py" "no session: handler subscription failed"]) :=
  ⟨rfl,
    (c7_no_session_noop ⟨[7], [8], [9]⟩ [] "m" (Handler.mk "py" 0) rfl).1⟩

/-! ## Claim C3 -/

theorem on_client_message_trace (ls : Listeners) (sessions : Sessions)
    (msg : String) (h : Handler) :
    (on_client_message ls sessions msg h).2 =
      wait_for_listeners ls .client msg h.language_server ++
        [match lookupD sessions h.language_server with
         | none =>
            Event.logError h.language_server "no session: client message dropped"
         | some _ => Event.sessionWrite h.language_server msg] := by
  unfold on_client_message
  cases lookupD sessions h.language_server <;> rfl

/-- Claim C3: for every client message and every listener registered under
the CLIENT or ALL scope, `on_client_message` completes that listener's
invocation for the message before `Session.write` is issued: the trace
contains a completion event for each such listener, and every
listener-completion event precedes every `sessionWrite` event. -/
theorem c3_listeners_before_write (ls : Listeners) (sessions : Sessions)
    (msg : String) (h : Handler) :
    (∀ l ∈ ls.client,
      Event.listenerDone .client l msg h.language_server ∈
        (on_client_message ls sessions msg h).2) ∧
    (∀ l ∈ ls.all,
      Event.listenerDone .all l msg h.language_server ∈
        (on_client_message ls sessions msg h).2) ∧
    (∀ (i j : Nat) (sc : MessageScope) (l : Nat) (m' k' k'' m'' : String),
      (on_client_message ls sessions msg h).2[i]? =
        some (Event.listenerDone sc l m' k') →
      (on_client_message ls sessions msg h).2[j]? =
        some (Event.sessionWrite k'' m'') →
      i < j) := by
  refine ⟨?_, ?_, ?_⟩
  · intro l hl
    rw [on_client_message_trace]
    apply List.mem_append_left
    apply List.mem_append_left
    exact List.mem_map.mpr ⟨l, hl, rfl⟩
  · intro l hl
    rw [on_client_message_trace]
    apply List.mem_append_left
    apply List.mem_append_right
    exact List.mem_map.mpr ⟨l, hl, rfl⟩
  · intro i j sc l m' k' k'' m'' hi hj
    rw [on_client_message_trace] at hi hj
    have hilt : i < (wait_for_listeners ls .client msg h.language_server).length := by
      by_contra hle
      push_neg at hle
      rw [List.getElem?_append_right hle] at hi
      have hm := List.getElem?_mem hi
      rw [List.mem_singleton] at hm
      cases hls : lookupD sessions h.language_server <;> rw [hls] at hm <;>
        exact Event.noConfusion hm
    have hjge : (wait_for_listeners ls .client msg h.language_server).length ≤ j := by
      by_contra hlt
      push_neg at hlt
      rw [List.getElem?_append_left hlt] at hj
      obtain ⟨sc', l', heq⟩ := mem_wait_for_listeners (List.getElem?_mem hj)
      exact Event.noConfusion heq
    omega

/-- Witness for C3: a concrete registered CLIENT listener has its
completion event in the trace. -/
theorem c3_listeners_before_write_witness :
    (5 : Nat) ∈ ([5] : List Nat) ∧
    Event.listenerDone .client 5 "m" "py" ∈
      (on_client_message ⟨[9], [5], []⟩ [("py", [])] "m"
        (Handler.mk "py" 0)).2 :=
  ⟨by decide,
    (c3_listeners_before_write ⟨[9], [5], []⟩ [("py", [])] "m"
        (Handler.mk "py" 0)).1 5 (by decide)⟩

/-! ## Claim C10 -/

/-- Claim C10: even when the handler's key has no live session, the
CLIENT- and ALL-scope listeners are dispatched and awaited for the
message; the session lookup happens only afterwards, so the trace is the
listener completions followed by the drop log, with no `session.write`. -/
theorem c10_listeners_without_session (ls : Listeners) (sessions : Sessions)
    (msg : String) (h : Handler)
    (hdead : lookupD sessions h.language_server = none) :
    (∀ l ∈ ls.client,
      Event.listenerDone .client l msg h.language_server ∈
        (on_client_message ls sessions msg h).2) ∧
    (∀ l ∈ ls.all,
      Event.listenerDone .all l msg h.language_server ∈
        (on_client_message ls sessions msg h).2) ∧
    (∀ k m, Event.sessionWrite k m ∉ (on_client_message ls sessions msg h).2) ∧
    (on_client_message ls sessions msg h).2 =
      wait_for_listeners ls .client msg h.language_server ++
        [Event.logError h.language_server
          "no session: client message dropped"] := by
  refine ⟨?_, ?_, ?_, by rw [on_client_message_dead hdead]⟩
  · intro l hl
    rw [on_client_message_dead hdead]
    apply List.mem_append_left
    apply List.mem_append_left
    exact List.mem_map.mpr ⟨l, hl, rfl⟩
  · intro l hl
    rw [on_client_message_dead hdead]
    apply List.mem_append_left
    apply List.mem_append_right
    exact List.mem_map.mpr ⟨l, hl, rfl⟩
  · intro k m hmem
    rw [on_client_message_dead hdead] at hmem
    rcases List.mem_append.mp hmem with hm | hm
    · obtain ⟨sc', l', heq⟩ := mem_wait_for_listeners hm
      exact Event.noConfusion heq
    · exact Event.noConfusion (List.mem_singleton.mp hm)

/-- Witness for C10: with no session for `"py"`, a registered CLIENT
listener still observes the (subsequently dropped) message. -/
theorem c10_listeners_without_session_witness :
    lookupD ([] : Sessions) "py" = none ∧
    Event.listenerDone .client 6 "m" "py" ∈
      (on_client_message ⟨[5], [6], [7]⟩ [] "m" (Handler.mk "py" 0)).2 :=
  ⟨rfl,
    (c10_listeners_without_session ⟨[5], [6], [7]⟩ [] "m"
        (Handler.mk "py" 0) rfl).1 6 (by decide)⟩

/-! ## Claim C4 -/

/-- Counterexample to claim C4 as stated: the broadcast loop of
`on_server_message` has no per-handler exception handling, so when the
first subscribed handler's `write_message` raises, the second subscribed
handler — whose own deliver call would succeed — receives nothing. -/
theorem c4_failure_isolation_cex :
    (broadcast_handlers (fun y => y.id == 1) "m"
        [Handler.mk "py" 1, Handler.mk "py" 2]).1 = [] ∧
    (fun y : Handler => y.id == 1) (Handler.mk "py" 1) = true ∧
    (fun y : Handler => y.id == 1) (Handler.mk "py" 2) = false ∧
    Handler.mk "py" 2 ∈ [Handler.mk "py" 1, Handler.mk "py" 2] ∧
    Event.handlerWrite (Handler.mk "py" 2) "m" ∉
      (broadcast_handlers (fun y => y.id == 1) "m"
        [Handler.mk "py" 1, Handler.mk "py" 2]).1 := by
  decide

/-- Claim C4, amended: a raised exception in one handler's `write_message`
aborts the broadcast of `on_server_message`: the handlers before the first
failing one receive the message, the failing handler's exception
propagates, and the handlers after it are not delivered to (no
per-recipient isolation). -/
theorem c4_broadcast_stops_at_first_failure (fails : Handler → Bool)
    (msg : String) (pre post : List Handler) (hbad : Handler)
    (hpre : ∀ x ∈ pre, fails x = false) (hfail : fails hbad = true) :
    broadcast_handlers fails msg (pre ++ hbad :: post) =
      (pre.map (fun x => Event.handlerWrite x msg), some hbad) := by
  induction pre with
  | nil => simp [broadcast_handlers, hfail]
  | cons a rest ih =>
      have ha : fails a = false := hpre a (List.mem_cons_self a rest)
      have hrest : ∀ x ∈ rest, fails x = false :=
        fun x hx => hpre x (List.mem_cons_of_mem a hx)
      simp [broadcast_handlers, ha, ih hrest]

/-- Witness for the amended C4 at a concrete subscriber list: one healthy
handler before the failing one is delivered to, the broadcast then stops. -/
theorem c4_broadcast_stops_at_first_failure_witness :
    (∀ x ∈ [Handler.mk "py" 2], (fun y : Handler => y.id == 1) x = false) ∧
    broadcast_handlers (fun y : Handler => y.id == 1) "m"
        [Handler.mk "py" 2, Handler.mk "py" 1] =
      ([Event.handlerWrite (Handler.mk "py" 2) "m"],
        some (Handler.mk "py" 1)) :=
  ⟨by decide,
    c4_broadcast_stops_at_first_failure (fun y => y.id == 1) "m"
      [Handler.mk "py" 2] [] (Handler.mk "py" 1) (by decide) (by decide)⟩

/-! ## Claim C6 -/

/-- Counterexample to claim C6 as stated: `initialize` runs
`init_language_servers`, then `init_listeners`, then `init_sessions`, so
the step trace is *not* resolve specs → build sessions → register
listeners. -/
theorem c6_init_order_cex :
    (run_init [] [] [] true ⟨[], [], []⟩ ⟨[], [], ⟨[], [], []⟩, []⟩).2 ≠
      [InitStep.resolveSpecs, InitStep.buildSessions,
        InitStep.registerListeners] := by
  decide

/-- Claim C6, amended: broker initialization performs its three steps in
the strict order resolve specs → register listeners → build sessions, and
the sessions are built from the freshly resolved operative mapping. -/
theorem c6_init_order (s c : PyDict Spec) (p : List SpecFinder) (ad : Bool)
    (cfg : Listeners) (st : ManagerState) :
    (run_init s c p ad cfg st).2 =
      [InitStep.resolveSpecs, InitStep.registerListeners,
        InitStep.buildSessions] ∧
    (run_init s c p ad cfg st).1.sessions =
      (collect_language_servers s c p ad true).map
        (fun kv => (kv.1, ([] : List Handler))) :=
  ⟨rfl, rfl⟩

/-! ## Claim C9 -/

theorem broadcast_interleaved_events (msg : String) (hs : List Handler) :
    ∀ (unsubs : List (List Handler)) (s : Sessions),
      (broadcast_interleaved msg hs unsubs s).1 =
        hs.map (fun x => Event.handlerWrite x msg) := by
  induction hs with
  | nil => intro _ _; rfl
  | cons a rest ih =>
      intro unsubs s
      simp [broadcast_interleaved, ih]

/-- Claim C9: `on_server_message` delivers the message to exactly the
snapshot of the session's subscribers at a single point in time — the
instant the broadcast loop reads `session.handlers` (after the awaited
listener phase, during which concurrent unsubscribes do take effect) —
and the delivered set is unchanged by any unsubscribes interleaved while
the broadcast iteration is in progress, for every interleaving. -/
theorem c9_broadcast_snapshot (ls : Listeners) (sessions : Sessions)
    (key msg : String) (during_listeners : List Handler)
    (during_broadcast : List (List Handler)) :
    (on_server_message ls sessions key msg during_listeners
        during_broadcast).1 =
      wait_for_listeners ls .server msg key ++
        ((lookupD (apply_unsubs sessions during_listeners) key).getD []).map
          (fun x => Event.handlerWrite x msg) := by
  show wait_for_listeners ls .server msg key ++
      (broadcast_interleaved msg
        ((lookupD (apply_unsubs sessions during_listeners) key).getD [])
        during_broadcast (apply_unsubs sessions during_listeners)).1 = _
  rw [broadcast_interleaved_events]

end JupyterLsp
